import Mathlib

/-!
Verification of the core reward-computation engine of the secondary-issuance
repository: header codecs (accounting field, epoch field), the cell size
model, the reward formulas, the checkpointed aggregator and the scan loops.

All definitions are shallow embeddings of the JavaScript sources.  Byte
strings (hex-encoded buffers in the source) are modelled as lists of bytes
(List Nat, one element per byte); JavaScript BigInt arithmetic is modelled
on Nat / Int; thrown exceptions are modelled with Except.
-/

/-- Little-endian byte-list to natural number.  Models the accumulation
loop of u64leFromHex16 and Buffer.readBigUInt64LE: byte i contributes
byte * 2^(8*i). -/
def leBytesToNat : List Nat → Nat
  | [] => 0
  | b :: rest => b + 256 * leBytesToNat rest

/-- Read the 8-byte little-endian unsigned integer at byte offset off,
as readBigUInt64LE(off) does on a Buffer (and as seg(i) followed by
u64leFromHex16 does on the hex string). -/
def u64leAt (bytes : List Nat) (off : Nat) : Nat :=
  leBytesToNat ((bytes.drop off).take 8)

/-- Sum of f over the half-open integer range [lo, lo+n). -/
def sumRange (f : Nat → Nat) (lo n : Nat) : Nat :=
  match n with
  | 0 => 0
  | n + 1 => f lo + sumRange f (lo + 1) n

theorem sumRange_succ_right (f : Nat → Nat) (lo n : Nat) :
    sumRange f lo (n + 1) = sumRange f lo n + f (lo + n) := by
  induction n generalizing lo with
  | zero => simp [sumRange]
  | succ n ih =>
    rw [sumRange, ih, sumRange]
    have h : lo + (n + 1) = lo + 1 + n := by omega
    rw [h]
    omega

theorem sumRange_split (f : Nat → Nat) (lo m n : Nat) :
    sumRange f lo (m + n) = sumRange f lo m + sumRange f (lo + m) n := by
  induction m generalizing lo with
  | zero => simp [sumRange]
  | succ m ih =>
    have h : m + 1 + n = (m + n) + 1 := by omega
    rw [h, sumRange, ih, sumRange]
    have h2 : lo + (m + 1) = lo + 1 + m := by omega
    rw [h2]
    omega

/-! ### HeaderCodec: the 32-byte accounting ("dao") field -/

/-- parseDao from the header-only secondary-issuance script: checks that
the dao field is exactly 32 bytes (hex length 64) and returns the pair
(C, U) read as little-endian u64 at byte offsets 0 (seg 0) and 24 (seg 3);
a wrong length throws. -/
def parseDao (dao : List Nat) : Except String (Nat × Nat) :=
  if dao.length ≠ 32 then
    Except.error "dao field must be 32 bytes"
  else
    Except.ok (u64leAt dao 0, u64leAt dao 24)

/-- parseDaoAR from the unclaimed-reward scripts: the accumulated rate AR,
read as little-endian u64 at byte offset 8 of the dao field. -/
def parseDaoAR (dao : List Nat) : Nat :=
  u64leAt dao 8

/-- parseDaoS from the unclaimed-reward scripts: the treasury stock S,
read as little-endian u64 at byte offset 16 of the dao field. -/
def parseDaoS (dao : List Nat) : Nat :=
  u64leAt dao 16

/-- The accounting-field decoder of the spec, assembled from the source
decoders: the 32-byte length guard and the C / U offsets come from
parseDao, the AR offset from parseDaoAR and the S offset from parseDaoS.
Returns the quadruple (C, AR, S, U). -/
def decodeAccountingField (dao : List Nat) : Except String (Nat × Nat × Nat × Nat) :=
  if dao.length ≠ 32 then
    Except.error "dao field must be 32 bytes"
  else
    Except.ok (u64leAt dao 0, parseDaoAR dao, parseDaoS dao, u64leAt dao 24)

/-! ### HeaderCodec: the packed epoch field -/

/-- Decoded epoch field: epoch number, block index inside the epoch, and
epoch length in blocks. -/
structure Epoch where
  number : Nat
  index : Nat
  length : Nat
  deriving DecidableEq, Repr

/-- parseEpochPacked: the chain packs the epoch field as
(length shifted left 40) or (index shifted left 24) or number; the decoder
takes length from the bits above 40, index from the 16 bits above 24, and
number from the low 24 bits. -/
def parseEpochPacked (e : Nat) : Epoch :=
  { number := e &&& 0xFFFFFF
    index := (e >>> 24) &&& 0xFFFF
    length := e >>> 40 }

/-- The packed epoch value with the layout asserted by the source comment:
(length shifted left 40) or-ed with (index shifted left 24) or-ed with
number. -/
def epochPacked (number index length : Nat) : Nat :=
  (length <<< 40) ||| (index <<< 24) ||| number

/-! ### RewardFormula: per-block secondary issuance -/

/-- Mainnet secondary issuance per epoch, in shannons. -/
def SECONDARY_EPOCH_REWARD : Nat := 61369863013698

/-- perBlockSecondary: the fixed epoch reward divided evenly over the
epoch, with the remainder handed to the first (remainder) block indices;
epoch length 0 throws a RangeError. -/
def perBlockSecondary (epochLength epochIndex : Nat) : Except String Nat :=
  if epochLength = 0 then
    Except.error "Division by zero"
  else
    let q := SECONDARY_EPOCH_REWARD / epochLength
    let m := SECONDARY_EPOCH_REWARD % epochLength
    Except.ok (if epochIndex < m then q + 1 else q)

/-- Value of an Except result, defaulting to 0 on error; used to state sum
theorems over per-block quantities whose computation is guarded. -/
def valueOrZero : Except String Nat → Nat
  | Except.ok v => v
  | Except.error _ => 0

/-! ### Helper lemmas on bit layouts -/

theorem shiftLeft_lor_eq_add (a b k : Nat) (hb : b < 2 ^ k) :
    (a <<< k) ||| b = 2 ^ k * a + b := by
  apply Nat.eq_of_testBit_eq
  intro j
  rw [Nat.testBit_or, Nat.testBit_shiftLeft, Nat.testBit_mul_pow_two_add a hb j]
  by_cases h : j < k
  · have hk : ¬ (j ≥ k) := by omega
    simp [h, hk]
  · have hk : j ≥ k := by omega
    have hbj : b < 2 ^ j := lt_of_lt_of_le hb (Nat.pow_le_pow_right (by norm_num) hk)
    simp [h, hk, Nat.testBit_lt_two_pow hbj]

theorem epochPacked_eq_add (n i l : Nat) (hn : n < 2 ^ 24) (hi : i < 2 ^ 16) :
    epochPacked n i l = 2 ^ 40 * l + 2 ^ 24 * i + n := by
  unfold epochPacked
  have h1 : (i <<< 24) < 2 ^ 40 := by
    rw [Nat.shiftLeft_eq]
    omega
  rw [shiftLeft_lor_eq_add l (i <<< 24) 40 h1, Nat.shiftLeft_eq]
  have h2 : 2 ^ 40 * l + i * 2 ^ 24 = (2 ^ 16 * l + i) <<< 24 := by
    rw [Nat.shiftLeft_eq]
    ring
  rw [h2, shiftLeft_lor_eq_add _ n 24 hn]
  ring

/-! ### Claim theorems: epoch field round trip (C5) -/

/-- C5: for every tuple (number below 2^24, index below 2^16, length below
2^24 and positive), decoding the packed 64-bit epoch value
(length shifted left 40) or (index shifted left 24) or number returns
exactly that number, index and length: encode-then-decode is the identity
on this domain. -/
theorem epoch_encode_decode_id (n i l : Nat)
    (hn : n < 2 ^ 24) (hi : i < 2 ^ 16) (hl : l < 2 ^ 24) (hl0 : 0 < l) :
    parseEpochPacked (epochPacked n i l) = ⟨n, i, l⟩ := by
  rw [epochPacked_eq_add n i l hn hi]
  unfold parseEpochPacked
  have e24 : (0xFFFFFF : Nat) = 2 ^ 24 - 1 := by norm_num
  have e16 : (0xFFFF : Nat) = 2 ^ 16 - 1 := by norm_num
  congr 1
  · rw [e24, Nat.and_pow_two_sub_one_eq_mod]
    omega
  · rw [Nat.shiftRight_eq_div_pow, e16, Nat.and_pow_two_sub_one_eq_mod]
    omega
  · rw [Nat.shiftRight_eq_div_pow]
    omega

/-- Witness for C5 at a concrete tuple. -/
theorem epoch_encode_decode_id_witness :
    parseEpochPacked (epochPacked 5000 37 1800) = ⟨5000, 37, 1800⟩ :=
  epoch_encode_decode_id 5000 37 1800 (by norm_num) (by norm_num) (by norm_num) (by norm_num)

/-! ### Claim theorems: per-block secondary issuance (C2) -/

theorem sumRange_congr {f g : Nat → Nat} (h : ∀ i, f i = g i) (lo n : Nat) :
    sumRange f lo n = sumRange g lo n := by
  induction n generalizing lo with
  | zero => rfl
  | succ n ih => rw [sumRange, sumRange, h lo, ih]

theorem sumRange_const_add_ite (q m : Nat) :
    ∀ n, sumRange (fun i => q + if i < m then 1 else 0) 0 n = n * q + min n m := by
  intro n
  induction n with
  | zero => simp [sumRange]
  | succ n ih =>
    rw [sumRange_succ_right, ih, Nat.succ_mul]
    simp only [Nat.zero_add]
    by_cases h : n < m
    · rw [if_pos h]
      omega
    · rw [if_neg h]
      omega

/-- C2: for every positive epoch length L, the per-block secondary
issuance at index idx is floor(R / L) plus one exactly when
idx < R mod L (R the fixed epoch reward), and the per-block amounts
summed over the whole epoch 0..L-1 equal R exactly. -/
theorem perBlockSecondary_correct (L idx : Nat) (hL : 0 < L) :
    perBlockSecondary L idx =
      Except.ok (SECONDARY_EPOCH_REWARD / L +
        if idx < SECONDARY_EPOCH_REWARD % L then 1 else 0) ∧
    sumRange (fun i => valueOrZero (perBlockSecondary L i)) 0 L =
      SECONDARY_EPOCH_REWARD := by
  have hL0 : L ≠ 0 := Nat.pos_iff_ne_zero.mp hL
  constructor
  · unfold perBlockSecondary
    rw [if_neg hL0]
    by_cases h : idx < SECONDARY_EPOCH_REWARD % L <;> simp [h]
  · have hpt : ∀ i, valueOrZero (perBlockSecondary L i) =
        SECONDARY_EPOCH_REWARD / L +
          if i < SECONDARY_EPOCH_REWARD % L then 1 else 0 := by
      intro i
      unfold perBlockSecondary
      rw [if_neg hL0]
      by_cases h : i < SECONDARY_EPOCH_REWARD % L <;> simp [valueOrZero, h]
    rw [sumRange_congr hpt, sumRange_const_add_ite]
    have hmod : SECONDARY_EPOCH_REWARD % L < L := Nat.mod_lt _ hL
    have hdm : L * (SECONDARY_EPOCH_REWARD / L) + SECONDARY_EPOCH_REWARD % L =
        SECONDARY_EPOCH_REWARD := Nat.div_add_mod _ _
    omega

/-- Witness for C2 at epoch length 1800, index 0 (the end-to-end scenario
of the spec). -/
theorem perBlockSecondary_correct_witness :
    perBlockSecondary 1800 0 =
      Except.ok (SECONDARY_EPOCH_REWARD / 1800 +
        if 0 < SECONDARY_EPOCH_REWARD % 1800 then 1 else 0) ∧
    sumRange (fun i => valueOrZero (perBlockSecondary 1800 i)) 0 1800 =
      SECONDARY_EPOCH_REWARD :=
  perBlockSecondary_correct 1800 0 (by norm_num)

/-! ### Claim theorems: accounting field decoding (C7) -/

/-- C7: decoding the 32-byte accounting field fails with the
malformed-field error exactly when the input is not 32 bytes long, and on
a 32-byte input succeeds with the four little-endian u64 values read at
byte offsets 0, 8, 16 and 24 (C, AR, S, U in that order). -/
theorem decodeAccountingField_correct (dao : List Nat) :
    (decodeAccountingField dao = Except.error "dao field must be 32 bytes" ↔
      dao.length ≠ 32) ∧
    (decodeAccountingField dao =
        Except.ok (u64leAt dao 0, u64leAt dao 8, u64leAt dao 16, u64leAt dao 24) ↔
      dao.length = 32) := by
  unfold decodeAccountingField parseDaoAR parseDaoS
  by_cases h : dao.length = 32 <;> simp [h]

/-! ### CellSizeModel (ckb_capacity.js) -/

/-- A script: 32-byte code hash, one hash-type byte, variable args. -/
structure Script where
  code_hash : List Nat
  hash_type : Nat
  args : List Nat
  deriving DecidableEq, Repr

/-- A cell output: declared capacity in shannons, a lock script and an
optional type script. -/
structure CellOutput where
  capacity : Nat
  lock : Script
  type : Option Script
  deriving DecidableEq, Repr

def SHANNONS_PER_CKB : Nat := 100000000

/-- scriptBytesForOccupied: 32 (code hash) + 1 (hash type) + args length;
an absent script contributes 0. -/
def scriptBytesForOccupied : Option Script → Nat
  | none => 0
  | some s => 32 + 1 + s.args.length

/-- occupiedBytes: 8 bytes for the capacity field, the lock script bytes,
the type script bytes when a type script is present, and the data length. -/
def occupiedBytes (output : CellOutput) (outputData : List Nat) : Nat :=
  let dataLen := outputData.length
  let lockBytes := scriptBytesForOccupied (some output.lock)
  let typeBytes := match output.type with
    | some t => scriptBytesForOccupied (some t)
    | none => 0
  8 + lockBytes + typeBytes + dataLen

def occupiedCapacity (output : CellOutput) (outputData : List Nat) : Nat :=
  occupiedBytes output outputData * SHANNONS_PER_CKB

def freeCapacity (output : CellOutput) (outputData : List Nat) : Int :=
  (output.capacity : Int) - (occupiedCapacity output outputData : Int)

/-- The occupied-byte formula exactly as the spec sentence of claim C6
words it: the type contribution, when a type script is present, is
1 + scriptChargeBytes(type), with an extra byte said to mark script
presence.  Stated only to compare against the source's occupiedBytes. -/
def occupiedBytesSpecC6 (output : CellOutput) (outputData : List Nat) : Nat :=
  8 + (32 + 1 + output.lock.args.length) +
    (match output.type with
      | some t => 1 + (32 + 1 + t.args.length)
      | none => 0) +
    outputData.length

/-! ### Claim theorems: occupied bytes (C6) -/

/-- C6 counterexample: for a DAO-style cell with a type script (empty args
everywhere, 8-byte data), the source's occupiedBytes gives 82 bytes while
the claim's formula with its extra presence byte gives 83. -/
theorem occupiedBytes_no_presence_byte_counterexample :
    occupiedBytes
        { capacity := 10200000000,
          lock := { code_hash := [], hash_type := 0, args := [] },
          type := some { code_hash := [], hash_type := 0, args := [] } }
        (List.replicate 8 0) = 82 ∧
    occupiedBytesSpecC6
        { capacity := 10200000000,
          lock := { code_hash := [], hash_type := 0, args := [] },
          type := some { code_hash := [], hash_type := 0, args := [] } }
        (List.replicate 8 0) = 83 := by
  constructor <;> rfl

/-- C6 amended: occupiedBytes is 8 plus the lock script charge
(32 + 1 + args length) plus the type script charge (32 + 1 + args length
when a type script is present, 0 otherwise, with no extra presence byte)
plus the data length. -/
theorem occupiedBytes_formula (output : CellOutput) (outputData : List Nat) :
    occupiedBytes output outputData =
      8 + (32 + 1 + output.lock.args.length) +
        (match output.type with
          | some t => 32 + 1 + t.args.length
          | none => 0) +
        outputData.length := by
  cases h : output.type <;>
    simp [occupiedBytes, scriptBytesForOccupied, h]

/-! ### The DAO unclaimed-reward scan (dao unclaimed scripts) -/

namespace DaoUnclaimed

/-- scriptSizeBytes from the unclaimed-reward scripts: molecule sizing
4 + 12 + 32 + 1 + 4 + args length. -/
def scriptSizeBytes (script : Script) : Nat :=
  4 + 12 + 32 + 1 + 4 + script.args.length

/-- cellSizeBytes from the unclaimed-reward scripts: molecule sizing of
the whole output plus data. -/
def cellSizeBytes (output : CellOutput) (dataHex : List Nat) : Nat :=
  let lockSize := scriptSizeBytes output.lock
  let typeSize := match output.type with
    | some t => 1 + scriptSizeBytes t
    | none => 1
  let dataSize := 4 + dataHex.length
  4 + 8 + lockSize + typeSize + dataSize + 8

def SHANNONS_PER_BYTE : Nat := 100000000

def occupiedCapacity (output : CellOutput) (dataHex : List Nat) : Nat :=
  cellSizeBytes output dataHex * SHANNONS_PER_BYTE

/-- A deposit cell is marked by output data of exactly 8 zero bytes. -/
def isDepositData (data : List Nat) : Bool :=
  data = List.replicate 8 0

/-- parsePrepareBlockNumberHex: the deposit block number stored as a
little-endian u64 in a prepare-withdraw cell's data; empty data or data
that is not exactly 8 bytes throws. -/
def parsePrepareBlockNumber (outputData : List Nat) : Except String Nat :=
  if outputData.length = 0 then
    Except.error "invalid output_data for prepare-withdraw"
  else if outputData.length ≠ 8 then
    Except.error "prepare output_data must be 8 bytes"
  else
    Except.ok (leBytesToNat outputData)

/-- A live cell as delivered by the paged cell query: the output, its
data, and the block number at which it was confirmed. -/
structure LiveCell where
  output : CellOutput
  output_data : List Nat
  block_number : Nat
  deriving DecidableEq, Repr

/-- The running totals of the unclaimed-reward scan. -/
structure Totals where
  daoDeposit : Nat
  unclaimedDeposit : Int
  unclaimedPrepare : Int
  cntDeposit : Nat
  cntPrepare : Nat
  deriving DecidableEq, Repr

/-- The unclaimed reward of a cell with positive free capacity:
floor(free * arTip / arDep) - free, on BigInt values that are all
non-negative here. -/
def depositReward (free arTip arDep : Nat) : Int :=
  ((free * arTip / arDep : Nat) : Int) - (free : Int)

/-- One accumulation step of the scan: the reward is added to the running
total exactly when it is strictly positive. -/
def depositStep (unclaimed : Int) (free arTip arDep : Nat) : Int :=
  let reward := depositReward free arTip arDep
  if 0 < reward then unclaimed + reward else unclaimed

/-- Per-cell processing of the unclaimed-reward scan: capacity and
occupied capacity give free; non-positive free is skipped; 8-zero-byte
data is a deposit cell rewarded against the tip rate; anything else is a
prepare-withdraw cell whose data must parse as the deposit block number
(a parse failure throws and aborts the scan).  arOf resolves a block
number to the accumulated rate of that block's header. -/
def processCell (arTip : Nat) (arOf : Nat → Nat) (t : Totals) (c : LiveCell) :
    Except String Totals :=
  let cap := c.output.capacity
  let occ := occupiedCapacity c.output c.output_data
  let free : Int := (cap : Int) - (occ : Int)
  let t1 : Totals := { t with daoDeposit := t.daoDeposit + cap }
  if free ≤ 0 then Except.ok t1
  else if isDepositData c.output_data then
    let t2 : Totals := { t1 with cntDeposit := t1.cntDeposit + 1 }
    let arDep := arOf c.block_number
    Except.ok { t2 with
      unclaimedDeposit := depositStep t2.unclaimedDeposit free.toNat arTip arDep }
  else
    let t2 : Totals := { t1 with cntPrepare := t1.cntPrepare + 1 }
    match parsePrepareBlockNumber c.output_data with
    | Except.error e => Except.error e
    | Except.ok depositBn =>
      let arDep := arOf depositBn
      let arPrepare := arOf c.block_number
      Except.ok { t2 with
        unclaimedPrepare := depositStep t2.unclaimedPrepare free.toNat arPrepare arDep }

/-- The scan over the live-cell stream: cells processed in order, the
first thrown error aborting the whole run. -/
def scanCells (arTip : Nat) (arOf : Nat → Nat) :
    List LiveCell → Totals → Except String Totals
  | [], t => Except.ok t
  | c :: rest, t =>
    match processCell arTip arOf t c with
    | Except.error e => Except.error e
    | Except.ok t2 => scanCells arTip arOf rest t2

end DaoUnclaimed

/-! ### Claim theorems: deposit-cell unclaimed reward (C1) -/

/-- C1: for a live deposit cell with strictly positive free capacity, the
computed reward is the floor of free * AR_tip / AR_deposit minus free;
the accumulation step adds it to the running total exactly when it is
strictly positive; and when AR_tip equals AR_deposit the reward is
exactly 0. -/
theorem depositReward_correct (free arTip arDep : Nat) (u : Int)
    (hf : 0 < free) (hd : 0 < arDep) :
    DaoUnclaimed.depositReward free arTip arDep =
      Int.fdiv ((free : Int) * (arTip : Int)) (arDep : Int) - (free : Int) ∧
    (0 < DaoUnclaimed.depositReward free arTip arDep →
      DaoUnclaimed.depositStep u free arTip arDep =
        u + DaoUnclaimed.depositReward free arTip arDep) ∧
    (DaoUnclaimed.depositReward free arTip arDep ≤ 0 →
      DaoUnclaimed.depositStep u free arTip arDep = u) ∧
    (arTip = arDep → DaoUnclaimed.depositReward free arTip arDep = 0) := by
  refine ⟨?_, ?_, ?_, ?_⟩
  · unfold DaoUnclaimed.depositReward
    rw [Int.ofNat_fdiv, Nat.cast_mul]
  · intro h
    unfold DaoUnclaimed.depositStep
    rw [if_pos h]
  · intro h
    unfold DaoUnclaimed.depositStep
    rw [if_neg (by omega)]
  · intro h
    unfold DaoUnclaimed.depositReward
    rw [h, Nat.mul_div_cancel _ hd]
    omega

/-- Witness for C1 at the spec's end-to-end numbers: free = 2e9 shannons,
AR_tip = 1.05e16, AR_deposit = 1e16, running total 0. -/
theorem depositReward_correct_witness :
    DaoUnclaimed.depositReward 2000000000 10500000000000000 10000000000000000 =
      Int.fdiv ((2000000000 : Int) * (10500000000000000 : Int))
        (10000000000000000 : Int) - (2000000000 : Int) ∧
    (0 < DaoUnclaimed.depositReward 2000000000 10500000000000000 10000000000000000 →
      DaoUnclaimed.depositStep 0 2000000000 10500000000000000 10000000000000000 =
        0 + DaoUnclaimed.depositReward 2000000000 10500000000000000 10000000000000000) ∧
    (DaoUnclaimed.depositReward 2000000000 10500000000000000 10000000000000000 ≤ 0 →
      DaoUnclaimed.depositStep 0 2000000000 10500000000000000 10000000000000000 = 0) ∧
    (10500000000000000 = 10000000000000000 →
      DaoUnclaimed.depositReward 2000000000 10500000000000000 10000000000000000 = 0) :=
  depositReward_correct 2000000000 10500000000000000 10000000000000000 0
    (by norm_num) (by norm_num)

/-! ### Claim theorems: malformed prepare-withdraw data (C8) -/

/-- C8 counterexample: a prepare-withdraw cell whose data is 2 bytes
instead of 8 makes the scan throw; the run aborts with an error instead
of skipping the item and continuing with unchanged totals. -/
theorem scan_malformed_prepare_counterexample :
    DaoUnclaimed.scanCells 2 (fun _ => 1)
      [{ output := { capacity := 100000000000,
                     lock := { code_hash := [], hash_type := 0, args := [] },
                     type := some { code_hash := [], hash_type := 0, args := [] } },
         output_data := [1, 2],
         block_number := 50 }]
      { daoDeposit := 0, unclaimedDeposit := 0, unclaimedPrepare := 0,
        cntDeposit := 0, cntPrepare := 0 } =
    Except.error "prepare output_data must be 8 bytes" := by
  rfl

/-- C8 amended: a scanned item that classifies as a prepare-withdraw cell
(positive free capacity, data not the 8-zero-byte deposit marker) but
whose data is not exactly 8 bytes is fatal: the parse error propagates
out of the scan, so no totals are produced and the remaining items are
never processed. -/
theorem scan_malformed_prepare_aborts (arTip : Nat) (arOf : Nat → Nat)
    (t : DaoUnclaimed.Totals) (c : DaoUnclaimed.LiveCell)
    (rest : List DaoUnclaimed.LiveCell)
    (hfree : 0 < (c.output.capacity : Int) -
      (DaoUnclaimed.occupiedCapacity c.output c.output_data : Int))
    (hnotdep : DaoUnclaimed.isDepositData c.output_data = false)
    (hlen : c.output_data.length ≠ 8) :
    ∃ msg, DaoUnclaimed.scanCells arTip arOf (c :: rest) t = Except.error msg := by
  have hf : ¬ ((c.output.capacity : Int) -
      (DaoUnclaimed.occupiedCapacity c.output c.output_data : Int) ≤ 0) := by omega
  by_cases h0 : c.output_data.length = 0
  · refine ⟨"invalid output_data for prepare-withdraw", ?_⟩
    simp only [DaoUnclaimed.scanCells, DaoUnclaimed.processCell,
      DaoUnclaimed.parsePrepareBlockNumber, hf, if_false, hnotdep,
      Bool.false_eq_true, h0, if_pos, if_true]
  · refine ⟨"prepare output_data must be 8 bytes", ?_⟩
    simp only [DaoUnclaimed.scanCells, DaoUnclaimed.processCell,
      DaoUnclaimed.parsePrepareBlockNumber, hf, if_false, hnotdep,
      Bool.false_eq_true, h0, if_neg, if_true]
    rw [if_pos hlen]

/-- Witness for the amended C8 theorem at a concrete malformed cell. -/
theorem scan_malformed_prepare_aborts_witness :
    ∃ msg, DaoUnclaimed.scanCells 2 (fun _ => 1)
      [{ output := { capacity := 100000000000,
                     lock := { code_hash := [], hash_type := 0, args := [] },
                     type := some { code_hash := [], hash_type := 0, args := [] } },
         output_data := [1, 2, 3],
         block_number := 50 },
       { output := { capacity := 100000000000,
                     lock := { code_hash := [], hash_type := 0, args := [] },
                     type := some { code_hash := [], hash_type := 0, args := [] } },
         output_data := List.replicate 8 0,
         block_number := 51 }]
      { daoDeposit := 0, unclaimedDeposit := 0, unclaimedPrepare := 0,
        cntDeposit := 0, cntPrepare := 0 } = Except.error msg :=
  scan_malformed_prepare_aborts 2 (fun _ => 1) _ _ _
    (by decide) (by decide) (by decide)

/-! ### The header-only miner-secondary scan (secondary issuance totals) -/

/-- A block header as the scan consumes it: the 32-byte accounting (dao)
field and the packed epoch field. -/
structure RHeader where
  dao : List Nat
  epoch : Nat
  deriving DecidableEq, Repr

/-- The per-block miner secondary payout at block i, written directly with
the previous block's accounting field: floor(s_i * U_prev / C_prev) where
C_prev and U_prev are read at byte offsets 0 and 24 of block (i-1)'s dao
field and s_i is the per-block secondary issuance of block i's epoch
position. -/
def minerSecondaryAt (headers : Nat → RHeader) (i : Nat) : Nat :=
  valueOrZero (perBlockSecondary (parseEpochPacked (headers i).epoch).length
      (parseEpochPacked (headers i).epoch).index) *
    u64leAt (headers (i - 1)).dao 24 / u64leAt (headers (i - 1)).dao 0

/-- The streaming loop of the miner-secondary scan: prev holds the header
of the block before i and is replaced by block i's header after each
iteration; C and U always come from prev.  A malformed dao field, a
non-positive epoch length, or division by zero C aborts the run. -/
def scanSecondary (headers : Nat → RHeader) (endH : Nat) (prev : RHeader)
    (i total : Nat) : Except String Nat :=
  if h : endH < i then Except.ok total
  else
    match parseDao prev.dao with
    | Except.error e => Except.error e
    | Except.ok (cPrev, uPrev) =>
      let ep := parseEpochPacked (headers i).epoch
      if ep.length = 0 then Except.error "BAD epoch length"
      else if cPrev = 0 then Except.error "Division by zero"
      else
        match perBlockSecondary ep.length ep.index with
        | Except.error e => Except.error e
        | Except.ok s =>
          scanSecondary headers endH (headers i) (i + 1) (total + s * uPrev / cPrev)
termination_by endH + 1 - i

set_option maxRecDepth 8000 in
theorem scanSecondary_eq_sum_aux (headers : Nat → RHeader) (endH start : Nat)
    (hdao : ∀ i, i < endH + 1 → start ≤ i → (headers (i - 1)).dao.length = 32)
    (heplen : ∀ i, i < endH + 1 → start ≤ i →
      (parseEpochPacked (headers i).epoch).length ≠ 0)
    (hC : ∀ i, i < endH + 1 → start ≤ i → u64leAt (headers (i - 1)).dao 0 ≠ 0) :
    ∀ n i total, endH + 1 - i = n → start ≤ i →
      scanSecondary headers endH (headers (i - 1)) i total =
        Except.ok (total + sumRange (minerSecondaryAt headers) i (endH + 1 - i)) := by
  intro n
  induction n with
  | zero =>
    intro i total h hsi
    rw [scanSecondary, dif_pos (by omega), h]
    simp [sumRange]
  | succ n ih =>
    intro i total h hsi
    have hile : i ≤ endH := by omega
    have hlen := hdao i (by omega) hsi
    have hep := heplen i (by omega) hsi
    have hc := hC i (by omega) hsi
    have hok : parseDao (headers (i - 1)).dao =
        Except.ok (u64leAt (headers (i - 1)).dao 0, u64leAt (headers (i - 1)).dao 24) := by
      unfold parseDao
      rw [if_neg (by omega)]
    rw [scanSecondary, dif_neg (by omega)]
    simp only [hok]
    rw [if_neg hep, if_neg hc]
    simp only [perBlockSecondary, if_neg hep]
    have ih2 := ih (i + 1)
      (total + (if (parseEpochPacked (headers i).epoch).index <
            SECONDARY_EPOCH_REWARD % (parseEpochPacked (headers i).epoch).length then
          SECONDARY_EPOCH_REWARD / (parseEpochPacked (headers i).epoch).length + 1
        else SECONDARY_EPOCH_REWARD / (parseEpochPacked (headers i).epoch).length) *
          u64leAt (headers (i - 1)).dao 24 / u64leAt (headers (i - 1)).dao 0)
      (by omega) (by omega)
    simp only [Nat.add_sub_cancel] at ih2
    have hcount : endH + 1 - (i + 1) = n := by omega
    rw [hcount] at ih2
    rw [ih2, h]
    have hfi : minerSecondaryAt headers i =
        (if (parseEpochPacked (headers i).epoch).index <
            SECONDARY_EPOCH_REWARD % (parseEpochPacked (headers i).epoch).length then
          SECONDARY_EPOCH_REWARD / (parseEpochPacked (headers i).epoch).length + 1
        else SECONDARY_EPOCH_REWARD / (parseEpochPacked (headers i).epoch).length) *
          u64leAt (headers (i - 1)).dao 24 / u64leAt (headers (i - 1)).dao 0 := by
      unfold minerSecondaryAt
      simp only [perBlockSecondary, if_neg hep, valueOrZero]
    rw [sumRange, hfi]
    refine congrArg Except.ok ?_
    omega

/-- C3: starting from prev = the header of block start-1, the scan total
is exactly the sum over i in [start, endH] of
floor(perBlockSecondary_i * U_prev / C_prev) with U and C decoded from
the PREVIOUS block's accounting field (C at byte offset 0, U at byte
offset 24); block i's own (U, C) is never used for block i's payout. -/
theorem scanSecondary_one_block_lag (headers : Nat → RHeader) (start endH : Nat)
    (hstart : 1 ≤ start)
    (hdao : ∀ i, i < endH + 1 → start ≤ i → (headers (i - 1)).dao.length = 32)
    (heplen : ∀ i, i < endH + 1 → start ≤ i →
      (parseEpochPacked (headers i).epoch).length ≠ 0)
    (hC : ∀ i, i < endH + 1 → start ≤ i → u64leAt (headers (i - 1)).dao 0 ≠ 0) :
    scanSecondary headers endH (headers (start - 1)) start 0 =
      Except.ok (sumRange (minerSecondaryAt headers) start (endH + 1 - start)) := by
  rw [scanSecondary_eq_sum_aux headers endH start hdao heplen hC
    (endH + 1 - start) start 0 rfl (Nat.le_refl start)]
  rw [Nat.zero_add]

/-- A sample header for concrete runs: C = 1 (bytes 0..7), U = 2
(bytes 24..31), epoch number 0, index 0, length 1. -/
def sampleHeader : RHeader :=
  { dao := [1, 0, 0, 0, 0, 0, 0, 0] ++ List.replicate 16 0 ++ [2, 0, 0, 0, 0, 0, 0, 0],
    epoch := epochPacked 0 0 1 }

/-- Witness for C3 on a concrete two-block range with constant headers. -/
theorem scanSecondary_one_block_lag_witness :
    scanSecondary (fun _ => sampleHeader) 2 sampleHeader 1 0 =
      Except.ok (sumRange (minerSecondaryAt (fun _ => sampleHeader)) 1 (2 + 1 - 1)) :=
  scanSecondary_one_block_lag (fun _ => sampleHeader) 1 2
    (by decide) (by decide) (by decide) (by decide)

/-! ### The checkpointed miner-reward aggregator (miner_reward.js) -/

namespace MinerReward

/-- The per-height contribution of the scan: the block fetch either
fails (a batch item with an error, a missing block, a missing first
transaction or first output: extractMinerReward returns null and the
height is skipped) or yields the first output's capacity of the first
transaction. -/
def blockReward (reward : Nat → Option Nat) (h : Nat) : Nat :=
  (reward h).getD 0

/-- The inner loop of one batch: heights lo, lo+1, ... of the batch in
order, adding each height's extracted capacity to the accumulator and
skipping heights whose result is null. -/
def batchSum (reward : Nat → Option Nat) : Nat → Nat → Nat → Nat
  | _, 0, acc => acc
  | lo, n + 1, acc =>
    batchSum reward (lo + 1) n
      (match reward lo with
       | none => acc
       | some c => acc + c)

/-- The batch loop of the aggregator: starting at base, each iteration
processes the heights base .. min(base + B - 1, endH) (the batch size B
truncated at the end of the range) and advances base by B, until base
passes endH; the accumulated sum is returned.  Checkpoints persist
(base + actual, sum) after a batch; resuming feeds a checkpoint's height
and sum back in as base and sum. -/
def runBatches (reward : Nat → Option Nat) (B : Nat) (hB : 0 < B) (endH : Nat)
    (base sum : Nat) : Nat :=
  if h : base ≤ endH then
    runBatches reward B hB endH (base + B)
      (batchSum reward base (min B (endH + 1 - base)) sum)
  else sum
termination_by endH + 1 - base

theorem batchSum_eq (reward : Nat → Option Nat) :
    ∀ n lo acc, batchSum reward lo n acc =
      acc + sumRange (blockReward reward) lo n := by
  intro n
  induction n with
  | zero => intro lo acc; simp [batchSum, sumRange]
  | succ n ih =>
    intro lo acc
    rw [batchSum, ih]
    cases hr : reward lo with
    | none => simp [sumRange, blockReward, hr]
    | some c =>
      simp only [sumRange, blockReward, hr, Option.getD_some]
      omega

theorem runBatches_eq_sum (reward : Nat → Option Nat) (B : Nat) (hB : 0 < B)
    (endH : Nat) :
    ∀ fuel base sum, endH + 1 - base ≤ fuel →
      runBatches reward B hB endH base sum =
        sum + sumRange (blockReward reward) base (endH + 1 - base) := by
  intro fuel
  induction fuel with
  | zero =>
    intro base sum h
    rw [runBatches, dif_neg (by omega)]
    have hz : endH + 1 - base = 0 := by omega
    rw [hz]
    simp [sumRange]
  | succ fuel ih =>
    intro base sum h
    by_cases hb : base ≤ endH
    · rw [runBatches, dif_pos hb, ih (base + B) _ (by omega), batchSum_eq]
      by_cases hcase : B ≤ endH + 1 - base
      · have hmin : min B (endH + 1 - base) = B := by omega
        rw [hmin]
        have hsplit := sumRange_split (blockReward reward) base B (endH + 1 - (base + B))
        have harg : B + (endH + 1 - (base + B)) = endH + 1 - base := by omega
        rw [harg] at hsplit
        rw [hsplit]
        omega
      · have hmin : min B (endH + 1 - base) = endH + 1 - base := by omega
        rw [hmin]
        have hz : endH + 1 - (base + B) = 0 := by omega
        rw [hz]
        simp [sumRange]
    · rw [runBatches, dif_neg hb]
      have hz : endH + 1 - base = 0 := by omega
      rw [hz]
      simp [sumRange]

end MinerReward

/-! ### Claim theorems: checkpoint resume equivalence (C4) -/

/-- C4: resuming the aggregator from a checkpoint whose next height is
mid and whose cumulative sum is the sum accumulated over [start, mid)
yields the same final total as one uninterrupted run over [start, endH],
for every split point start ≤ mid ≤ endH + 1 and every batch size B > 0;
moreover the uninterrupted total is exactly the sum of each height's
contribution over [start, endH] once each: no height is double-counted
and none is skipped. -/
theorem checkpoint_resume_equiv (reward : Nat → Option Nat) (B : Nat) (hB : 0 < B)
    (start endH mid : Nat) (hsm : start ≤ mid) (hme : mid ≤ endH + 1) :
    MinerReward.runBatches reward B hB endH mid
        (sumRange (MinerReward.blockReward reward) start (mid - start)) =
      MinerReward.runBatches reward B hB endH start 0 ∧
    MinerReward.runBatches reward B hB endH start 0 =
      sumRange (MinerReward.blockReward reward) start (endH + 1 - start) := by
  have h1 := MinerReward.runBatches_eq_sum reward B hB endH (endH + 1 - mid) mid
    (sumRange (MinerReward.blockReward reward) start (mid - start)) (Nat.le_refl _)
  have h2 := MinerReward.runBatches_eq_sum reward B hB endH (endH + 1 - start) start 0
    (Nat.le_refl _)
  constructor
  · rw [h1, h2]
    have hsplit := sumRange_split (MinerReward.blockReward reward) start
      (mid - start) (endH + 1 - mid)
    have ha : start + (mid - start) = mid := by omega
    have hc : (mid - start) + (endH + 1 - mid) = endH + 1 - start := by omega
    rw [ha, hc] at hsplit
    omega
  · rw [h2]
    omega

/-- Witness for C4 with batch size 2, range [0, 4], split point 3, and a
reward stream with one failing height. -/
theorem checkpoint_resume_equiv_witness :
    MinerReward.runBatches (fun n => if n = 2 then none else some (n + 10)) 2
        (by norm_num) 4 3
        (sumRange (MinerReward.blockReward
          (fun n => if n = 2 then none else some (n + 10))) 0 (3 - 0)) =
      MinerReward.runBatches (fun n => if n = 2 then none else some (n + 10)) 2
        (by norm_num) 4 0 0 ∧
    MinerReward.runBatches (fun n => if n = 2 then none else some (n + 10)) 2
        (by norm_num) 4 0 0 =
      sumRange (MinerReward.blockReward
        (fun n => if n = 2 then none else some (n + 10))) 0 (4 + 1 - 0) :=
  checkpoint_resume_equiv (fun n => if n = 2 then none else some (n + 10)) 2
    (by norm_num) 0 4 3 (by norm_num) (by norm_num)

/-! ### The memoizing resolvers (getTx / getARByBlockNumberHex) -/

namespace CachedLookup

/-- The phases a caller of the resolver can be in: about to check the
cache, awaiting the remote fetch it issued on a cache miss
(the fetch is in flight), or done. -/
inductive FetchPhase where
  | ready
  | waiting
  | finished
  deriving DecidableEq, Repr

/-- One concurrent caller of the resolver: the key it asked for and its
current phase. -/
structure CallerState where
  key : Nat
  phase : FetchPhase
  deriving DecidableEq, Repr

/-- The shared state: the memo map (newest entry first) and the callers. -/
structure ResolverState where
  cache : List (Nat × Nat)
  callers : List CallerState
  deriving DecidableEq, Repr

/-- Association-list lookup, modelling Map.get / Map.has. -/
def lookupCache : List (Nat × Nat) → Nat → Option Nat
  | [], _ => none
  | (k, v) :: rest, key => if k = key then some v else lookupCache rest key

/-- One atomic step of one caller, following the source resolver body:
a ready caller checks the cache and either finishes on a hit or issues
the remote fetch (entering the waiting phase) on a miss; the await point
between the cache check and the cache store lets other callers run; a
waiting caller's fetch resolves, stores the value in the cache
(Map.set after the await) and finishes. -/
def stepCaller (fetchVal : Nat → Nat) (s : ResolverState) (i : Nat) : ResolverState :=
  match s.callers[i]? with
  | none => s
  | some c =>
    match c.phase with
    | FetchPhase.ready =>
      match lookupCache s.cache c.key with
      | some _ =>
        { s with callers := s.callers.set i { key := c.key, phase := FetchPhase.finished } }
      | none =>
        { s with callers := s.callers.set i { key := c.key, phase := FetchPhase.waiting } }
    | FetchPhase.waiting =>
      { cache := (c.key, fetchVal c.key) :: s.cache,
        callers := s.callers.set i { key := c.key, phase := FetchPhase.finished } }
    | FetchPhase.finished => s

/-- Run a schedule: the interleaving chosen by the event loop, as a list
of caller indices each taking one step. -/
def run (fetchVal : Nat → Nat) : ResolverState → List Nat → ResolverState
  | s, [] => s
  | s, i :: rest => run fetchVal (stepCaller fetchVal s i) rest

/-- How many fetches for key k are in flight. -/
def inflightCount (s : ResolverState) (k : Nat) : Nat :=
  s.callers.countP (fun c => decide (c.key = k ∧ c.phase = FetchPhase.waiting))

theorem countP_set_eq {α : Type} (p : α → Bool) :
    ∀ (l : List α) (i : Nat) (a b : α), l[i]? = some a → p a = p b →
      (l.set i b).countP p = l.countP p := by
  intro l
  induction l with
  | nil =>
    intro i a b h _
    simp at h
  | cons x xs ih =>
    intro i a b h hp
    cases i with
    | zero =>
      rw [List.getElem?_cons_zero] at h
      simp only [Option.some.injEq] at h
      subst h
      simp [List.set, List.countP_cons, hp]
    | succ n =>
      rw [List.getElem?_cons_succ] at h
      simp [List.set, List.countP_cons, ih n a b h hp]

end CachedLookup

/-! ### Claim theorems: at most one in-flight fetch per key (C9) -/

/-- C9 counterexample: two callers ask for the same key 5 while the cache
is empty; the event loop runs both cache checks before either fetch
resolves, so both miss and both issue a fetch: two fetches for key 5 are
in flight at once, refuting the at-most-one-in-flight guarantee. -/
theorem cachedLookup_duplicate_inflight_counterexample :
    ¬ (CachedLookup.inflightCount
        (CachedLookup.run (fun _ => 7)
          { cache := [],
            callers := [{ key := 5, phase := CachedLookup.FetchPhase.ready },
                        { key := 5, phase := CachedLookup.FetchPhase.ready }] }
          [0, 1]) 5 ≤ 1) := by
  decide

/-- C9 amended: the resolvers memoize completed fetches only.  A caller
whose cache check finds the key already resolved issues no fetch: the
cache is unchanged and no key's in-flight fetch count grows.  Callers
whose cache checks all precede the first fetch's completion each issue
their own duplicate fetch, so at-most-one-in-flight holds only once a
fetch for the key has completed, not while it is in flight. -/
theorem cachedLookup_hit_no_fetch (fetchVal : Nat → Nat)
    (s : CachedLookup.ResolverState) (i : Nat) (c : CachedLookup.CallerState) (v : Nat)
    (hc : s.callers[i]? = some c)
    (hready : c.phase = CachedLookup.FetchPhase.ready)
    (hhit : CachedLookup.lookupCache s.cache c.key = some v) :
    (CachedLookup.stepCaller fetchVal s i).cache = s.cache ∧
    (∀ k, CachedLookup.inflightCount (CachedLookup.stepCaller fetchVal s i) k =
      CachedLookup.inflightCount s k) := by
  have hstep : CachedLookup.stepCaller fetchVal s i =
      { s with callers := s.callers.set i ⟨c.key, CachedLookup.FetchPhase.finished⟩ } := by
    unfold CachedLookup.stepCaller
    rw [hc]
    simp only [hready, hhit]
  rw [hstep]
  refine ⟨rfl, ?_⟩
  intro k
  unfold CachedLookup.inflightCount
  apply CachedLookup.countP_set_eq _ s.callers i c _ hc
  simp [hready]

/-- Witness for the amended C9 theorem: a caller hitting a warm cache. -/
theorem cachedLookup_hit_no_fetch_witness :
    (CachedLookup.stepCaller (fun _ => 9)
        { cache := [(5, 7)],
          callers := [{ key := 5, phase := CachedLookup.FetchPhase.ready }] } 0).cache =
      ({ cache := [(5, 7)],
         callers := [{ key := 5, phase := CachedLookup.FetchPhase.ready }] } :
        CachedLookup.ResolverState).cache ∧
    (∀ k, CachedLookup.inflightCount
        (CachedLookup.stepCaller (fun _ => 9)
          { cache := [(5, 7)],
            callers := [{ key := 5, phase := CachedLookup.FetchPhase.ready }] } 0) k =
      CachedLookup.inflightCount
        { cache := [(5, 7)],
          callers := [{ key := 5, phase := CachedLookup.FetchPhase.ready }] } k) :=
  cachedLookup_hit_no_fetch (fun _ => 9) _ 0
    { key := 5, phase := CachedLookup.FetchPhase.ready } 7 (by rfl) (by rfl) (by rfl)

/-! ### The settlement-reward transaction scan (withdraw2) -/

namespace Withdraw2

/-- One object of a paged get_transactions result: its io type
("input" or "output") and the transaction hash it belongs to. -/
structure TxPoint where
  io_type : String
  tx_hash : String
  deriving DecidableEq, Repr

/-- One page of the scan: walk the objects in order; an input object
whose hash is truthy and not yet in the global seen set adds the hash to
the set and to the page's list of hashes submitted for reward
processing; everything else is skipped.  Returns the grown seen set and
the submitted hashes of this page. -/
def pageCollect (seen : List String) : List TxPoint → List String × List String
  | [] => (seen, [])
  | o :: rest =>
    if o.io_type = "input" ∧ o.tx_hash ≠ "" ∧ o.tx_hash ∉ seen then
      let r := pageCollect (o.tx_hash :: seen) rest
      (r.1, o.tx_hash :: r.2)
    else
      pageCollect seen rest

/-- The whole scan: pages in order, threading the seen set through;
the result is every hash ever submitted to reward processing, in order. -/
def scanPages : List String → List (List TxPoint) → List String
  | _, [] => []
  | seen, p :: ps =>
    let r := pageCollect seen p
    r.2 ++ scanPages r.1 ps

theorem pageCollect_spec (objs : List TxPoint) :
    ∀ seen : List String,
      (∀ h, h ∈ (pageCollect seen objs).2 → h ∉ seen) ∧
      (pageCollect seen objs).2.Nodup ∧
      (∀ x, x ∈ (pageCollect seen objs).1 ↔ x ∈ (pageCollect seen objs).2 ∨ x ∈ seen) ∧
      (∀ h, h ∈ (pageCollect seen objs).2 →
        ∃ o, o ∈ objs ∧ o.io_type = "input" ∧ o.tx_hash = h) := by
  induction objs with
  | nil =>
    intro seen
    simp [pageCollect]
  | cons o rest ih =>
    intro seen
    by_cases hcond : o.io_type = "input" ∧ o.tx_hash ≠ "" ∧ o.tx_hash ∉ seen
    · obtain ⟨h1, h2, h3, h4⟩ := ih (o.tx_hash :: seen)
      simp only [pageCollect, if_pos hcond]
      refine ⟨?_, ?_, ?_, ?_⟩
      · intro h hmem
        rcases List.mem_cons.mp hmem with heq | hm
        · subst heq
          exact hcond.2.2
        · intro hs
          exact h1 h hm (List.mem_cons_of_mem _ hs)
      · rw [List.nodup_cons]
        exact ⟨fun hmem => h1 o.tx_hash hmem (List.mem_cons_self _ _), h2⟩
      · intro x
        rw [h3 x]
        simp only [List.mem_cons]
        tauto
      · intro h hmem
        rcases List.mem_cons.mp hmem with heq | hm
        · subst heq
          exact ⟨o, List.mem_cons_self _ _, hcond.1, rfl⟩
        · obtain ⟨o2, ho2, hio, hh⟩ := h4 h hm
          exact ⟨o2, List.mem_cons_of_mem _ ho2, hio, hh⟩
    · obtain ⟨h1, h2, h3, h4⟩ := ih seen
      simp only [pageCollect, if_neg hcond]
      refine ⟨h1, h2, h3, ?_⟩
      intro h hm
      obtain ⟨o2, ho2, hio, hh⟩ := h4 h hm
      exact ⟨o2, List.mem_cons_of_mem _ ho2, hio, hh⟩

theorem scanPages_spec (pages : List (List TxPoint)) :
    ∀ seen : List String,
      (scanPages seen pages).Nodup ∧
      (∀ h, h ∈ scanPages seen pages → h ∉ seen) ∧
      (∀ h, h ∈ scanPages seen pages →
        ∃ p, p ∈ pages ∧ ∃ o, o ∈ p ∧ o.io_type = "input" ∧ o.tx_hash = h) := by
  induction pages with
  | nil =>
    intro seen
    simp [scanPages]
  | cons p ps ih =>
    intro seen
    obtain ⟨pg1, pg2, pg3, pg4⟩ := pageCollect_spec p seen
    obtain ⟨s1, s2, s3⟩ := ih (pageCollect seen p).1
    simp only [scanPages]
    refine ⟨?_, ?_, ?_⟩
    · rw [List.nodup_append]
      refine ⟨pg2, s1, ?_⟩
      intro a ha hb
      exact s2 a hb ((pg3 a).mpr (Or.inl ha))
    · intro h hm
      rcases List.mem_append.mp hm with hm1 | hm2
      · exact pg1 h hm1
      · intro hs
        exact s2 h hm2 ((pg3 h).mpr (Or.inr hs))
    · intro h hm
      rcases List.mem_append.mp hm with hm1 | hm2
      · obtain ⟨o, ho, hio, hh⟩ := pg4 h hm1
        exact ⟨p, List.mem_cons_self _ _, o, ho, hio, hh⟩
      · obtain ⟨p2, hp2, hrest⟩ := s3 h hm2
        exact ⟨p2, List.mem_cons_of_mem _ hp2, hrest⟩

end Withdraw2

/-! ### Claim theorems: no duplicate reward processing (C10) -/

/-- C10: over the whole scan starting from an empty seen set, the list of
transaction hashes submitted to reward processing has no duplicates —
every hash delivered by the paged index is processed at most once, even
when it appears in several index objects or on several pages — and every
submitted hash comes from an input-type index object of some page. -/
theorem withdraw2_no_duplicate_submission (pages : List (List Withdraw2.TxPoint)) :
    (Withdraw2.scanPages [] pages).Nodup ∧
    (∀ h, h ∈ Withdraw2.scanPages [] pages →
      ∃ p, p ∈ pages ∧ ∃ o, o ∈ p ∧ o.io_type = "input" ∧ o.tx_hash = h) := by
  obtain ⟨h1, _h2, h3⟩ := Withdraw2.scanPages_spec pages []
  exact ⟨h1, h3⟩
